import Mathlib

/-!
Verification development for the retrieval-and-ranking core of the
chatbot-RAG repository.  The Python modules
`app/utils/hybrid_retrieval.py`, `app/utils/query_analyzer.py`,
`app/utils/feedback_system.py` and `app/retrievers/rag.py` are shallowly
embedded below: pure Python functions become Lean functions, the mutable
feedback-system object becomes explicit state passing, Python floats become
exact rationals (the claims under study are order/structure properties that
do not depend on rounding), `datetime` values become rational hours, and
every fallible external call (FAISS search, cross-encoder, embedding model)
is passed in as an `Except`-valued oracle.
-/

set_option maxRecDepth 8000
set_option maxHeartbeats 1600000

namespace RagSpec

/-! ### Generic helpers shared by the embeddings -/

/-- Model of Python `collections.deque(maxlen := n)` after an append burst:
only the last `n` elements are retained. -/
def takeLast {α : Type} (n : ℕ) (l : List α) : List α := l.drop (l.length - n)

/-- First-occurrence deduplication, structurally recursive on a fuel bound
so that it reduces inside the kernel.  Models the key order of a Python
`dict`/`defaultdict` built by iterating a list: keys appear in order of
first insertion. -/
def dedupFirstAux {α : Type} [DecidableEq α] : ℕ → List α → List α
  | 0, _ => []
  | _, [] => []
  | n + 1, k :: rest => k :: dedupFirstAux n (rest.filter (fun x => x ≠ k))

def dedupFirst {α : Type} [DecidableEq α] (l : List α) : List α :=
  dedupFirstAux l.length l

theorem mem_dedupFirstAux {α : Type} [DecidableEq α] (n : ℕ) (l : List α) (x : α)
    (hn : l.length ≤ n) : x ∈ dedupFirstAux n l ↔ x ∈ l := by
  induction n generalizing l with
  | zero =>
    have : l = [] := List.length_eq_zero.mp (Nat.le_zero.mp hn)
    subst this
    simp [dedupFirstAux]
  | succ n ih =>
    cases l with
    | nil => simp [dedupFirstAux]
    | cons k rest =>
      have hlen : (rest.filter (fun x => x ≠ k)).length ≤ n :=
        le_trans (List.length_filter_le _ _) (Nat.lt_succ_iff.mp (lt_of_lt_of_le
          (by simp [Nat.lt_succ_iff]) hn))
      simp only [dedupFirstAux, List.mem_cons, ih _ hlen, List.mem_filter]
      constructor
      · rintro (h | ⟨h, _⟩)
        · exact Or.inl h
        · exact Or.inr h
      · rintro (h | h)
        · exact Or.inl h
        · by_cases hx : x = k
          · exact Or.inl hx
          · exact Or.inr ⟨h, by simpa using hx⟩

theorem mem_dedupFirst {α : Type} [DecidableEq α] (l : List α) (x : α) :
    x ∈ dedupFirst l ↔ x ∈ l :=
  mem_dedupFirstAux l.length l x le_rfl

/-- Python's `list.sort(key := f, reverse := True)` is a stable sort by
non-increasing key.  A stable sort is uniquely determined by its comparator,
so we model it with `List.insertionSort` and the comparator
"`key b ≤ key a`": an element is inserted in front of the first element
whose key is not larger, which keeps earlier elements first on ties —
exactly CPython's stable behaviour. -/
def pySortDescBy {α : Type} (key : α → ℚ) (l : List α) : List α :=
  List.insertionSort (fun a b => key b ≤ key a) l

theorem length_pySortDescBy {α : Type} (key : α → ℚ) (l : List α) :
    (pySortDescBy key l).length = l.length :=
  List.length_insertionSort _ l

theorem mem_pySortDescBy {α : Type} (key : α → ℚ) (l : List α) (x : α) :
    x ∈ pySortDescBy key l ↔ x ∈ l :=
  List.mem_insertionSort _

theorem sorted_pySortDescBy {α : Type} (key : α → ℚ) (l : List α) :
    (pySortDescBy key l).Pairwise (fun a b => key b ≤ key a) := by
  have htot : IsTotal α (fun a b => key b ≤ key a) := ⟨fun a b => (le_total (key b) (key a))⟩
  have htrans : IsTrans α (fun a b => key b ≤ key a) :=
    ⟨fun _ _ _ h1 h2 => le_trans h2 h1⟩
  exact List.sorted_insertionSort _ l

/-- Stability of the modelled Python sort: if the input is strictly ordered
by some auxiliary relation `q` (for us: ascending original index), the
output is ordered by "strictly larger key, or equal key and `q`". -/
theorem stable_orderedInsert {α : Type} (key : α → ℚ) (q : α → α → Prop)
    (x : α) (l : List α)
    (hl : l.Pairwise (fun a b => key b < key a ∨ (key a = key b ∧ q a b)))
    (hx : ∀ y ∈ l, q x y) :
    (List.orderedInsert (fun a b => key b ≤ key a) x l).Pairwise
      (fun a b => key b < key a ∨ (key a = key b ∧ q a b)) := by
  induction l with
  | nil => simp [List.orderedInsert]
  | cons y ys ih =>
    by_cases hcmp : key y ≤ key x
    · have : List.orderedInsert (fun a b => key b ≤ key a) x (y :: ys) = x :: y :: ys := by
        simp [List.orderedInsert, hcmp]
      rw [this]
      refine List.Pairwise.cons ?_ hl
      intro z hz
      rcases List.mem_cons.mp hz with hzy | hzys
      · subst hzy
        rcases lt_or_eq_of_le hcmp with h | h
        · exact Or.inl h
        · exact Or.inr ⟨h.symm, hx z (List.mem_cons_self _ _)⟩
      · have hyz := (List.pairwise_cons.mp hl).1 z hzys
        have hzle : key z ≤ key y := by
          rcases hyz with h | ⟨h, _⟩
          · exact le_of_lt h
          · exact le_of_eq h.symm
        rcases lt_or_eq_of_le (le_trans hzle hcmp) with h | h
        · exact Or.inl h
        · exact Or.inr ⟨h.symm, hx z (List.mem_cons_of_mem _ hzys)⟩
    · have : List.orderedInsert (fun a b => key b ≤ key a) x (y :: ys)
          = y :: List.orderedInsert (fun a b => key b ≤ key a) x ys := by
        simp [List.orderedInsert, hcmp]
      rw [this]
      have hxy : key x < key y := lt_of_not_le hcmp
      refine List.Pairwise.cons ?_ ?_
      · intro z hz
        rcases (List.mem_orderedInsert _).mp hz with hzx | hzys
        · subst hzx; exact Or.inl hxy
        · exact (List.pairwise_cons.mp hl).1 z hzys
      · exact ih (List.pairwise_cons.mp hl).2 (fun z hz => hx z (List.mem_cons_of_mem _ hz))

theorem stable_pySortDescBy {α : Type} (key : α → ℚ) (q : α → α → Prop)
    (l : List α) (hl : l.Pairwise q) :
    (pySortDescBy key l).Pairwise
      (fun a b => key b < key a ∨ (key a = key b ∧ q a b)) := by
  induction l with
  | nil => simp [pySortDescBy, List.insertionSort]
  | cons x xs ih =>
    have hxall : ∀ y ∈ xs, q x y := (List.pairwise_cons.mp hl).1
    have hxs := ih (List.pairwise_cons.mp hl).2
    show (List.orderedInsert _ x (List.insertionSort _ xs)).Pairwise _
    refine stable_orderedInsert key q x _ hxs ?_
    intro y hy
    exact hxall y ((List.mem_insertionSort _).mp hy)

/-- Python `str.lower`, implemented over the character list so that it
reduces in the kernel (`String.toLower` maps `Char.toLower` over the
characters but is defined by position recursion, which does not reduce). -/
def lowerString (s : String) : String := (s.toList.map Char.toLower).asString

/-- Python `min(list)` on a non-empty list (0 on empty, never used there). -/
def listMin : List ℚ → ℚ
  | [] => 0
  | x :: xs => xs.foldl min x

/-- Python `max(list)` on a non-empty list (0 on empty, never used there). -/
def listMax : List ℚ → ℚ
  | [] => 0
  | x :: xs => xs.foldl max x

/-- Python `statistics.mean` (only ever called on non-empty lists). -/
def mean (l : List ℚ) : ℚ := l.sum / l.length

/-- Python `int(x)` on a float/rational: truncation toward zero
(t-division of numerator by denominator). -/
def ratTrunc (q : ℚ) : ℤ := Int.tdiv q.num q.den

theorem ratTrunc_intCast (n : ℤ) : ratTrunc (n : ℚ) = n := by
  simp [ratTrunc, Rat.num_intCast, Rat.den_intCast]

theorem ratTrunc_eq_floor (q : ℚ) (h : 0 ≤ q) : ratTrunc q = ⌊q⌋ := by
  have hnum : 0 ≤ q.num := Rat.num_nonneg.mpr h
  rw [ratTrunc, Int.tdiv_eq_ediv hnum (by positivity), Rat.floor_def]

/-! ### BM25Retriever (`app/utils/hybrid_retrieval.py`)

`BM25Retriever._tokenize` applies the regex `\b\w+\b` to the lowercased
text: it returns the maximal runs of word characters.  We model word
characters as ASCII alphanumerics plus underscore (the claims never involve
non-ASCII text). -/

def isWordChar (c : Char) : Bool := c.isAlphanum || c = '_'

def tokensAux : List Char → List Char → List (List Char)
  | [], acc => if acc.isEmpty then [] else [acc.reverse]
  | c :: rest, acc =>
    if isWordChar c then tokensAux rest (c :: acc)
    else if acc.isEmpty then tokensAux rest []
    else acc.reverse :: tokensAux rest []

/-- `BM25Retriever._tokenize`: lowercase, then split into `\w+` runs. -/
def tokenize (s : String) : List String :=
  (tokensAux (s.toList.map Char.toLower) []).map List.asString

/-- Per-document term frequency (`Counter(tokens)[t]`). -/
def termFreq (tokens : List String) (t : String) : ℕ := tokens.count t

/-- Tokenized corpus, as computed once by `BM25Retriever.fit`. -/
def docTokensOf (corpus : List String) : List (List String) := corpus.map tokenize

/-- Document lengths from `fit`. -/
def docLengths (corpus : List String) : List ℕ := (docTokensOf corpus).map List.length

/-- Average document length from `fit` (0 when the corpus is empty). -/
def avgdl (corpus : List String) : ℚ :=
  if corpus = [] then 0
  else ((docLengths corpus).sum : ℚ) / ((docLengths corpus).length : ℚ)

/-- Document frequency of a term: number of documents containing it. -/
def docFreq (corpus : List String) (t : String) : ℕ :=
  ((docTokensOf corpus).filter (fun ts => t ∈ ts)).length

/-- `self.idf.get(term, 0)`.  `fit` stores
`ln((N − df + 0.5)/(df + 0.5))` for every term occurring in the corpus;
absent terms default to 0.  The transcendental `math.log` is an external
library call, supplied as the oracle parameter `log`: every property proved
below holds for an arbitrary `log`. -/
def idf (log : ℚ → ℚ) (corpus : List String) (t : String) : ℚ :=
  if 0 < docFreq corpus t then
    log (((corpus.length : ℚ) - (docFreq corpus t : ℚ) + 1/2) / ((docFreq corpus t : ℚ) + 1/2))
  else 0

/-- The BM25 score of one document against the query tokens
(`BM25Retriever.search`, inner loop).  Query tokens are iterated with
multiplicity, matching the `for token in query_tokens` loop. -/
def bm25DocScore (log : ℚ → ℚ) (k1 b : ℚ) (corpus : List String)
    (queryTokens : List String) (dtoks : List String) (dlen : ℕ) : ℚ :=
  queryTokens.foldl
    (fun score t =>
      if 0 < termFreq dtoks t then
        let tf : ℚ := (termFreq dtoks t : ℚ)
        score + idf log corpus t *
          (tf * (k1 + 1) / (tf + k1 * (1 - b + b * ((dlen : ℚ) / avgdl corpus))))
      else score)
    0

/-- `BM25Retriever.search`: score every document, sort by descending score
(stable, so ties keep ascending document order), return the first `top_k`.
The `is_fitted` guard is modelled by taking the fitted corpus directly. -/
def bm25Search (log : ℚ → ℚ) (k1 b : ℚ) (corpus : List String)
    (query : String) (top_k : ℕ) : List (ℕ × ℚ) :=
  let queryTokens := tokenize query
  let scores := (List.range corpus.length).map
    (fun i => (i, bm25DocScore log k1 b corpus queryTokens
      ((docTokensOf corpus).getD i []) ((docLengths corpus).getD i 0)))
  (pySortDescBy (fun p => p.2) scores).take top_k

theorem bm25DocScore_zero (log : ℚ → ℚ) (k1 b : ℚ) (corpus : List String)
    (queryTokens dtoks : List String) (dlen : ℕ)
    (hq : ∀ t ∈ queryTokens, termFreq dtoks t = 0) :
    bm25DocScore log k1 b corpus queryTokens dtoks dlen = 0 := by
  unfold bm25DocScore
  suffices h : ∀ (qts : List String), (∀ t ∈ qts, termFreq dtoks t = 0) → ∀ acc : ℚ,
      qts.foldl
        (fun score t =>
          if 0 < termFreq dtoks t then
            let tf : ℚ := (termFreq dtoks t : ℚ)
            score + idf log corpus t *
              (tf * (k1 + 1) / (tf + k1 * (1 - b + b * ((dlen : ℚ) / avgdl corpus))))
          else score)
        acc = acc by
    exact h _ hq 0
  intro qts hq'
  induction qts with
  | nil => intro acc; rfl
  | cons t ts ih =>
    intro acc
    have h0 : termFreq dtoks t = 0 := hq' t (List.mem_cons_self _ _)
    simp only [List.foldl_cons, h0, lt_irrefl, if_false]
    exact ih (fun u hu => hq' u (List.mem_cons_of_mem _ hu)) acc

theorem mem_bm25Search_scores (log : ℚ → ℚ) (k1 b : ℚ) (corpus : List String)
    (query : String) (top_k : ℕ) (p : ℕ × ℚ)
    (hp : p ∈ bm25Search log k1 b corpus query top_k) :
    p.1 < corpus.length ∧
      p.2 = bm25DocScore log k1 b corpus (tokenize query)
        ((docTokensOf corpus).getD p.1 []) ((docLengths corpus).getD p.1 0) := by
  unfold bm25Search at hp
  have hp2 := (mem_pySortDescBy _ _ _).mp (List.mem_of_mem_take hp)
  rcases List.mem_map.mp hp2 with ⟨i, hi, hpi⟩
  have hi' := List.mem_range.mp hi
  subst hpi
  exact ⟨hi', rfl⟩

/-- C6: for every fitted corpus and query, `BM25Retriever.search` returns at
most `top_k` pairs, sorted by non-increasing BM25 score, with ties between
equal scores broken by original document order (lower index first). -/
theorem bm25Search_sorted_tiebreak (log : ℚ → ℚ) (k1 b : ℚ)
    (corpus : List String) (query : String) (top_k : ℕ) :
    (bm25Search log k1 b corpus query top_k).length ≤ top_k ∧
    (bm25Search log k1 b corpus query top_k).Pairwise
      (fun p q : ℕ × ℚ => q.2 < p.2 ∨ (p.2 = q.2 ∧ p.1 < q.1)) := by
  constructor
  · unfold bm25Search
    exact List.length_take_le _ _
  · unfold bm25Search
    refine List.Pairwise.sublist (List.take_sublist _ _) ?_
    refine stable_pySortDescBy (fun p : ℕ × ℚ => p.2) (fun p q : ℕ × ℚ => p.1 < q.1) _ ?_
    rw [List.pairwise_map]
    exact List.pairwise_lt_range _

/-- C10: `BM25Retriever.search` scores all `N` fitted documents and returns
exactly `min top_k N` pairs; when no document shares a token with the query
every returned score is exactly `0.0`, so the result-set size carries no
relevance signal. -/
theorem bm25Search_length_min (log : ℚ → ℚ) (k1 b : ℚ)
    (corpus : List String) (query : String) (top_k : ℕ) :
    (bm25Search log k1 b corpus query top_k).length = min top_k corpus.length ∧
    ((∀ d ∈ corpus, ∀ t ∈ tokenize query, termFreq (tokenize d) t = 0) →
      (bm25Search log k1 b corpus query top_k).map Prod.snd
        = List.replicate (min top_k corpus.length) 0) := by
  have hlen : (bm25Search log k1 b corpus query top_k).length = min top_k corpus.length := by
    unfold bm25Search
    rw [List.length_take, length_pySortDescBy, List.length_map, List.length_range]
  refine ⟨hlen, fun hdisj => ?_⟩
  rw [List.eq_replicate_iff]
  refine ⟨by rw [List.length_map, hlen], ?_⟩
  intro s hs
  rcases List.mem_map.mp hs with ⟨p, hp, hps⟩
  rcases mem_bm25Search_scores log k1 b corpus query top_k p hp with ⟨hi, hsc⟩
  have hdoc : (docTokensOf corpus).getD p.1 [] = tokenize (corpus.getD p.1 "") := by
    unfold docTokensOf
    rw [List.getD_eq_getElem _ _ (by simpa [docTokensOf] using hi),
        List.getD_eq_getElem _ _ hi]
    simp
  subst hps
  rw [hsc, hdoc]
  refine bm25DocScore_zero _ _ _ _ _ _ _ ?_
  intro t ht
  have hmem : corpus.getD p.1 "" ∈ corpus := by
    rw [List.getD_eq_getElem _ _ hi]
    exact List.getElem_mem _
  exact hdisj (corpus.getD p.1 "") hmem t ht

/-- C10 witness: a corpus sharing no token with the query still returns
`min top_k N` results, all with score `0.0`. -/
theorem bm25Search_length_min_witness :
    (bm25Search (fun q => q) (3/2) (3/4) ["alpha document"] "beta" 3).length = min 3 1 ∧
    (bm25Search (fun q => q) (3/2) (3/4) ["alpha document"] "beta" 3).map Prod.snd
      = List.replicate (min 3 1) 0 :=
  ⟨(bm25Search_length_min (fun q => q) (3/2) (3/4) ["alpha document"] "beta" 3).1,
    (bm25Search_length_min (fun q => q) (3/2) (3/4) ["alpha document"] "beta" 3).2
      (by decide)⟩

/-! ### HybridRetriever (`app/utils/hybrid_retrieval.py`)

`RetrievalResult` keeps the source dataclass fields.  `chunk_id` is
`str(idx)` in the source; we keep the integer index (the conversion is
injective and never inspected).  Document metadata dicts are opaque to the
fusion logic and modelled as string labels. -/

structure RetrievalResult where
  chunk_id : ℕ
  content : String
  metadata : String
  dense_score : ℚ
  sparse_score : ℚ
  hybrid_score : ℚ
  retrieval_method : String
deriving DecidableEq, Repr

/-- `HybridRetriever._normalize_scores`: min-max normalization to `[0,1]`,
with the all-equal case mapped to `1.0` for every entry. -/
def normalizeScores : List (ℕ × ℚ) → List (ℕ × ℚ)
  | [] => []
  | p :: rest =>
    let score_values := (p :: rest).map Prod.snd
    let min_score := listMin score_values
    let max_score := listMax score_values
    if max_score = min_score then (p :: rest).map (fun q => (q.1, (1 : ℚ)))
    else (p :: rest).map (fun q => (q.1, (q.2 - min_score) / (max_score - min_score)))

/-- Lookup in the score dict `{idx: score for idx, score in l}`: on
duplicate indices the later pair overwrites the earlier one. -/
def dictGet (l : List (ℕ × ℚ)) (i : ℕ) : Option ℚ :=
  (l.reverse.find? (fun p => p.1 = i)).map Prod.snd

theorem dictGet_nil (i : ℕ) : dictGet [] i = none := rfl

theorem dictGet_isSome (l : List (ℕ × ℚ)) (i : ℕ) :
    (dictGet l i).isSome ↔ i ∈ l.map Prod.fst := by
  unfold dictGet
  rw [Option.isSome_map', List.find?_isSome]
  constructor
  · rintro ⟨p, hp, hpi⟩
    exact List.mem_map.mpr ⟨p, List.mem_reverse.mp hp, by simpa using hpi⟩
  · intro h
    rcases List.mem_map.mp h with ⟨p, hp, hpi⟩
    exact ⟨p, List.mem_reverse.mpr hp, by simpa using hpi⟩

/-- One entry of the `results` list in `HybridRetriever._combine_scores`. -/
def combineResult (dense_weight sparse_weight : ℚ) (documents metadata : List String)
    (dense_normalized sparse_normalized : List (ℕ × ℚ)) (idx : ℕ) : RetrievalResult :=
  let dense_score := (dictGet dense_normalized idx).getD 0
  let sparse_score := (dictGet sparse_normalized idx).getD 0
  { chunk_id := idx
    content := documents.getD idx ""
    metadata := metadata.getD idx ""
    dense_score := dense_score
    sparse_score := sparse_score
    hybrid_score := dense_weight * dense_score + sparse_weight * sparse_score
    retrieval_method :=
      if (dictGet dense_normalized idx).isSome ∧ (dictGet sparse_normalized idx).isSome then
        "hybrid"
      else if (dictGet dense_normalized idx).isSome then "dense"
      else "sparse" }

/-- `HybridRetriever._combine_scores`.  Python iterates the index set
`set(dense) | set(sparse)` in unspecified hash order before sorting; we fix
first-appearance order — every property proved below is order-independent
or established after the final sort. -/
def combineScores (dense_weight sparse_weight : ℚ) (documents metadata : List String)
    (dense_results sparse_results : List (ℕ × ℚ)) : List RetrievalResult :=
  let dense_normalized := normalizeScores dense_results
  let sparse_normalized := normalizeScores sparse_results
  let all_indices := dedupFirst (dense_normalized.map Prod.fst ++ sparse_normalized.map Prod.fst)
  pySortDescBy (fun r => r.hybrid_score)
    (all_indices.map (combineResult dense_weight sparse_weight documents metadata
      dense_normalized sparse_normalized))

/-- `best_dense_score = dense_results[0][1] if dense_results else 0.0`. -/
def bestDenseScore : List (ℕ × ℚ) → ℚ
  | [] => 0
  | p :: _ => p.2

/-- Result constructed on the BM25-fallback branch of
`HybridRetriever.search_with_fallback`. -/
def mkFallbackResult (documents metadata : List String) (p : ℕ × ℚ) : RetrievalResult :=
  { chunk_id := p.1
    content := documents.getD p.1 ""
    metadata := metadata.getD p.1 ""
    dense_score := 0
    sparse_score := p.2
    hybrid_score := p.2
    retrieval_method := "sparse_fallback" }

/-- `HybridRetriever.search_with_fallback`.  The dense search runs through
the external embedding model, so its ranked output `dense_results` is an
oracle input; the BM25 side uses the retriever's own `BM25Retriever()` with
default `k1 = 1.5`, `b = 0.75`.  The `is_fitted` guard is modelled by
taking the fitted document list directly. -/
def searchWithFallback (log : ℚ → ℚ) (dense_weight sparse_weight fallback_threshold : ℚ)
    (documents metadata : List String) (dense_results : List (ℕ × ℚ))
    (query : String) (top_k sparse_top_k : ℕ) : List RetrievalResult :=
  if bestDenseScore dense_results < fallback_threshold then
    ((bm25Search log (3/2) (3/4) documents query top_k).map
      (mkFallbackResult documents metadata)).take top_k
  else
    (combineScores dense_weight sparse_weight documents metadata dense_results
      (bm25Search log (3/2) (3/4) documents query sparse_top_k)).take top_k

/-- C3: whenever the best dense similarity is below the fallback threshold
(including the no-dense-results case, whose best score is `0.0`),
`search_with_fallback` returns only `sparse_fallback` results, in exactly
the order produced by the sparse BM25 search. -/
theorem searchWithFallback_sparse_only (log : ℚ → ℚ)
    (dense_weight sparse_weight fallback_threshold : ℚ)
    (documents metadata : List String) (dense_results : List (ℕ × ℚ))
    (query : String) (top_k sparse_top_k : ℕ)
    (h : bestDenseScore dense_results < fallback_threshold) :
    (∀ r ∈ searchWithFallback log dense_weight sparse_weight fallback_threshold
        documents metadata dense_results query top_k sparse_top_k,
      r.retrieval_method = "sparse_fallback") ∧
    (searchWithFallback log dense_weight sparse_weight fallback_threshold
        documents metadata dense_results query top_k sparse_top_k).map
      (fun r => (r.chunk_id, r.sparse_score))
      = bm25Search log (3/2) (3/4) documents query top_k := by
  have hbranch : searchWithFallback log dense_weight sparse_weight fallback_threshold
      documents metadata dense_results query top_k sparse_top_k
      = ((bm25Search log (3/2) (3/4) documents query top_k).map
        (mkFallbackResult documents metadata)).take top_k := by
    unfold searchWithFallback
    rw [if_pos h]
  have hlen : ((bm25Search log (3/2) (3/4) documents query top_k).map
      (mkFallbackResult documents metadata)).length ≤ top_k := by
    rw [List.length_map]
    exact (bm25Search_sorted_tiebreak log (3/2) (3/4) documents query top_k).1
  have htake : searchWithFallback log dense_weight sparse_weight fallback_threshold
      documents metadata dense_results query top_k sparse_top_k
      = (bm25Search log (3/2) (3/4) documents query top_k).map
        (mkFallbackResult documents metadata) := by
    rw [hbranch, List.take_of_length_le hlen]
  constructor
  · intro r hr
    rw [htake] at hr
    rcases List.mem_map.mp hr with ⟨p, _, hpr⟩
    rw [← hpr]
    rfl
  · rw [htake, List.map_map]
    have hfun : ((fun r : RetrievalResult => (r.chunk_id, r.sparse_score)) ∘
        mkFallbackResult documents metadata) = id := by
      funext p
      rfl
    rw [hfun, List.map_id]

/-- C3 witness: a concrete corpus and query with no dense results. -/
theorem searchWithFallback_sparse_only_witness :
    (searchWithFallback (fun q => q) (7/10) (3/10) (1/10) ["pwc intern", "tesla revenue"]
        ["", ""] [] "pwc" 5 5).map (fun r => (r.chunk_id, r.sparse_score))
      = bm25Search (fun q => q) (3/2) (3/4) ["pwc intern", "tesla revenue"] "pwc" 5 :=
  (searchWithFallback_sparse_only (fun q => q) (7/10) (3/10) (1/10)
    ["pwc intern", "tesla revenue"] ["", ""] [] "pwc" 5 5 (by norm_num [bestDenseScore])).2

theorem normalizeScores_nil : normalizeScores [] = [] := rfl

/-- C4 counterexample: with one empty list `_combine_scores` does NOT reduce
to pure min-max normalization.  For sparse input `[(0,10),(1,0)]` the
normalized scores are `[1, 0]`, but the hybrid scores carry the sparse
weight `0.3`: the top result scores `3/10 ≠ 1`. -/
theorem combineScores_weighted_counterexample :
    ((combineScores (7/10) (3/10) ["a", "b"] ["", ""] [] [(0, 10), (1, 0)]).map
        (fun r => r.hybrid_score)) = [3/10, 0] ∧
    normalizeScores [(0, 10), (1, 0)] = [(0, 1), (1, 0)] ∧ ((3 : ℚ)/10) ≠ 1 := by
  refine ⟨?_, ?_, by norm_num⟩ <;>
  norm_num [combineScores, normalizeScores, listMin, listMax, dedupFirst, dedupFirstAux,
    combineResult, dictGet, pySortDescBy, List.insertionSort, List.orderedInsert, List.find?]

/-- C4 (amended): with one input list empty, `_combine_scores` reduces to
min-max normalization of the other list scaled by that list's weight —
every result's hybrid score is `dense_weight * dense_norm` (resp.
`sparse_weight * sparse_norm`), the other score is 0, and the method is
exclusively `dense` (resp. `sparse`), never `hybrid`. -/
theorem combineScores_one_empty (dense_weight sparse_weight : ℚ)
    (documents metadata : List String) (dense sparse : List (ℕ × ℚ)) (r : RetrievalResult) :
    (r ∈ combineScores dense_weight sparse_weight documents metadata dense [] →
      r.retrieval_method = "dense" ∧ r.sparse_score = 0 ∧
      r.hybrid_score = dense_weight * r.dense_score ∧
      dictGet (normalizeScores dense) r.chunk_id = some r.dense_score) ∧
    (r ∈ combineScores dense_weight sparse_weight documents metadata [] sparse →
      r.retrieval_method = "sparse" ∧ r.dense_score = 0 ∧
      r.hybrid_score = sparse_weight * r.sparse_score ∧
      dictGet (normalizeScores sparse) r.chunk_id = some r.sparse_score) := by
  constructor
  · intro hr
    simp only [combineScores, normalizeScores_nil, List.map_nil, List.append_nil] at hr
    rw [mem_pySortDescBy] at hr
    rcases List.mem_map.mp hr with ⟨idx, hidx, rfl⟩
    rw [mem_dedupFirst] at hidx
    have hs : (dictGet (normalizeScores dense) idx).isSome :=
      (dictGet_isSome _ _).mpr hidx
    rcases Option.isSome_iff_exists.mp hs with ⟨v, hv⟩
    simp [combineResult, dictGet_nil, hv]
  · intro hr
    simp only [combineScores, normalizeScores_nil, List.map_nil, List.nil_append] at hr
    rw [mem_pySortDescBy] at hr
    rcases List.mem_map.mp hr with ⟨idx, hidx, rfl⟩
    rw [mem_dedupFirst] at hidx
    have hs : (dictGet (normalizeScores sparse) idx).isSome :=
      (dictGet_isSome _ _).mpr hidx
    rcases Option.isSome_iff_exists.mp hs with ⟨v, hv⟩
    simp [combineResult, dictGet_nil, hv]

def c4_witness_result : RetrievalResult :=
  { chunk_id := 0
    content := "a"
    metadata := ""
    dense_score := 1
    sparse_score := 0
    hybrid_score := 7/10
    retrieval_method := "dense" }

/-- C4 witness: the amended theorem applied to a concrete fusion call with
an empty sparse list. -/
theorem combineScores_one_empty_witness :
    c4_witness_result.retrieval_method = "dense" ∧ c4_witness_result.sparse_score = 0 ∧
    c4_witness_result.hybrid_score = (7/10) * c4_witness_result.dense_score ∧
    dictGet (normalizeScores [(0, 5), (1, 2)]) c4_witness_result.chunk_id
      = some c4_witness_result.dense_score :=
  (combineScores_one_empty (7/10) (3/10) ["a", "b"] ["", ""] [(0, 5), (1, 2)] []
    c4_witness_result).1 (by
      norm_num [combineScores, normalizeScores, listMin, listMax, dedupFirst, dedupFirstAux,
        combineResult, dictGet, pySortDescBy, List.insertionSort, List.orderedInsert,
        List.find?, c4_witness_result])

/-! ### QueryAnalyzer (`app/utils/query_analyzer.py`)

`_determine_optimal_k` is a pure function of the detected query type and
complexity; the regex-based detection upstream of it only selects which
enum values are fed in, so the claims we verify quantify over all enum
values.  The Python float multipliers `0.8 / 1.0 / 1.5` are modelled as
exact rationals: none of the products `base_k * multiplier` lies close
enough to an integer boundary for binary-float rounding to change
`int(...)`, so the truncated values coincide. -/

inductive QueryType
  | entity
  | summary
  | reasoning
  | definition
  | factual
deriving DecidableEq

inductive QueryComplexity
  | simple
  | medium
  | complex
deriving DecidableEq

/-- The `base_k` table of `_determine_optimal_k`. -/
def base_k : QueryType → ℤ
  | .entity => 3
  | .factual => 3
  | .definition => 2
  | .summary => 6
  | .reasoning => 7

/-- The `complexity_multiplier` table of `_determine_optimal_k`. -/
def complexity_multiplier : QueryComplexity → ℚ
  | .simple => 4/5
  | .medium => 1
  | .complex => 3/2

/-- `QueryAnalyzer._determine_optimal_k`:
`max(2, min(int(base_k[qt] * multiplier[qc]), 15))`. -/
def determineOptimalK (qt : QueryType) (qc : QueryComplexity) : ℤ :=
  max 2 (min (ratTrunc ((base_k qt : ℚ) * complexity_multiplier qc)) 15)

/-- C7: for every fixed query type, `optimal_k` is monotonically
non-decreasing in complexity, and for every type/complexity combination it
lies within `[2, 15]`. -/
theorem determineOptimalK_monotone_bounded :
    (∀ qt : QueryType,
      determineOptimalK qt QueryComplexity.simple ≤ determineOptimalK qt QueryComplexity.medium ∧
      determineOptimalK qt QueryComplexity.medium ≤ determineOptimalK qt QueryComplexity.complex) ∧
    (∀ (qt : QueryType) (qc : QueryComplexity),
      2 ≤ determineOptimalK qt qc ∧ determineOptimalK qt qc ≤ 15) := by
  constructor
  · intro qt
    cases qt <;>
      refine ⟨?_, ?_⟩ <;>
      simp only [determineOptimalK, base_k, complexity_multiplier] <;>
      rw [ratTrunc_eq_floor _ (by norm_num), ratTrunc_eq_floor _ (by norm_num)] <;>
      norm_num [min_def, max_def]
  · intro qt qc
    cases qt <;> cases qc <;>
      refine ⟨?_, ?_⟩ <;>
      simp only [determineOptimalK, base_k, complexity_multiplier] <;>
      rw [ratTrunc_eq_floor _ (by norm_num)] <;>
      norm_num [min_def, max_def]

/-! ### FeedbackSystem (`app/utils/feedback_system.py`)

The mutable `FeedbackSystem` object becomes explicit state passing.
Timestamps are rational hours (`datetime` arithmetic only ever adds or
compares fixed hour offsets).  Free-text payload fields (`feedback_id`,
`session_id`, `query`, `answer`, `context_chunks`, `user_comment`) never
influence the tuning logic and are omitted from the entry record;
`response_time` only feeds an average that the source computes and never
uses, so it is omitted as well.  File persistence (`_save_data` /
`_load_existing_data`) is I/O mirroring of the in-memory state and is not
modelled. -/

structure FeedbackEntry where
  rating : String
  timestamp : ℚ
  retrieval_method : String
  retrieval_k : ℤ
  rerank_threshold : ℚ
  quality_score : Option ℚ
  confidence_score : Option ℚ
deriving DecidableEq

/-- `ParameterAdjustment` dataclass.  The `reason` strings are formatted
messages in the source; they never influence behaviour, so we store fixed
tags. -/
structure ParameterAdjustment where
  parameter_name : String
  old_value : ℚ
  new_value : ℚ
  reason : String
  confidence : ℚ
  timestamp : ℚ
deriving DecidableEq

/-- The `self.optimal_params` dict. -/
structure OptimalParams where
  retrieval_k : ℤ
  rerank_threshold : ℚ
  hybrid_weight : ℚ
  quality_threshold : ℚ
deriving DecidableEq

/-- Startup defaults of `self.optimal_params`. -/
def defaultOptimalParams : OptimalParams :=
  { retrieval_k := 5
    rerank_threshold := 7/10
    hybrid_weight := 1/2
    quality_threshold := 3 }

structure FeedbackState where
  feedback_entries : List FeedbackEntry
  recent_adjustments : List ParameterAdjustment
  optimal_params : OptimalParams
deriving DecidableEq

/-- Startup state (no persisted files). -/
def initFeedbackState : FeedbackState :=
  { feedback_entries := []
    recent_adjustments := []
    optimal_params := defaultOptimalParams }

/-! Default `self.config` values. -/

def min_feedback_for_adjustment : ℕ := 5

def negative_feedback_threshold : ℚ := 2/5

def positive_feedback_boost : ℚ := 4/5

def k_adjustment_range : ℤ × ℤ := (3, 15)

def rerank_threshold_range : ℚ × ℚ := (1/10, 9/10)

def adjustment_cooldown_hours : ℚ := 2

def quality_weight : ℚ := 3/5

def user_rating_weight : ℚ := 2/5

/-- The `f"...{threshold:.2f}..."` component of the grouping key rounds the
threshold to two decimals (Python formats the shortest decimal of the
float; ties are vanishingly rare and irrelevant to the claims). -/
def round2 (q : ℚ) : ℚ := ((round (q * 100) : ℤ) : ℚ) / 100

/-- The grouping key `f"k{k}_thresh{t:.2f}_method{m}"` of
`_analyze_feedback_patterns`, kept as the injective tuple it encodes. -/
def entryKey (e : FeedbackEntry) : ℤ × ℚ × String :=
  (e.retrieval_k, round2 e.rerank_threshold, e.retrieval_method)

/-- Entries of the recent window (strictly newer than `now - 24h`). -/
def recentFeedback (now : ℚ) (entries : List FeedbackEntry) : List FeedbackEntry :=
  entries.filter (fun e => now - 24 < e.timestamp)

def positiveRatio (entries : List FeedbackEntry) : ℚ :=
  ((entries.filter (fun e => e.rating = "positive")).length : ℚ) / (entries.length : ℚ)

/-- `avg_quality`: mean of the present quality scores, `0.0` if none. -/
def avgQuality (entries : List FeedbackEntry) : ℚ :=
  let quality_scores := entries.filterMap (fun e => e.quality_score)
  if quality_scores = [] then 0 else mean quality_scores

/-- `combined_score = positive_ratio * user_rating_weight +
(avg_quality / 5) * quality_weight`. -/
def combinedScore (entries : List FeedbackEntry) : ℚ :=
  positiveRatio entries * user_rating_weight + (avgQuality entries / 5) * quality_weight

/-- `FeedbackSystem._suggest_improvements` on a sample entry of a poorly
performing group. -/
def suggestImprovements (now : ℚ) (sample : FeedbackEntry) : List ParameterAdjustment :=
  let kAdjs :=
    if sample.retrieval_k < 8 then
      [{ parameter_name := "retrieval_k"
         old_value := (sample.retrieval_k : ℚ)
         new_value := ((min (sample.retrieval_k + 2) k_adjustment_range.2 : ℤ) : ℚ)
         reason := "increase_k_poor_performance"
         confidence := 4/5
         timestamp := now }]
    else if sample.retrieval_k > 5 then
      [{ parameter_name := "retrieval_k"
         old_value := (sample.retrieval_k : ℚ)
         new_value := ((max (sample.retrieval_k - 1) k_adjustment_range.1 : ℤ) : ℚ)
         reason := "decrease_k_poor_performance"
         confidence := 7/10
         timestamp := now }]
    else []
  let tAdjs :=
    if sample.rerank_threshold > 1/2 then
      [{ parameter_name := "rerank_threshold"
         old_value := sample.rerank_threshold
         new_value := max (sample.rerank_threshold - 1/10) rerank_threshold_range.1
         reason := "lower_threshold_poor_performance"
         confidence := 7/10
         timestamp := now }]
    else []
  kAdjs ++ tAdjs

/-- `FeedbackSystem._reinforce_parameters`: directly overwrites the live
parameters with the sample entry's values (no clamping!) and emits an
`optimal_params_update` audit record. -/
def reinforceParameters (now : ℚ) (sample : FeedbackEntry) (p : OptimalParams) :
    OptimalParams × List ParameterAdjustment :=
  ({ p with
      retrieval_k := sample.retrieval_k
      rerank_threshold := sample.rerank_threshold },
   [{ parameter_name := "optimal_params_update"
      old_value := 0
      new_value := 1
      reason := "reinforce_excellent_performance"
      confidence := 9/10
      timestamp := now }])

/-- Analysis of one parameter group inside `_analyze_feedback_patterns`:
groups with fewer than 3 entries are skipped; a combined score below the
negative threshold yields improvement suggestions from the group's first
entry; one above the positive boost reinforces from the first entry. -/
def analyzeGroup (now : ℚ) (p : OptimalParams) :
    List FeedbackEntry → OptimalParams × List ParameterAdjustment
  | [] => (p, [])
  | e :: rest =>
    if (e :: rest).length < 3 then (p, [])
    else if combinedScore (e :: rest) < negative_feedback_threshold then
      (p, suggestImprovements now e)
    else if combinedScore (e :: rest) > positive_feedback_boost then
      reinforceParameters now e p
    else (p, [])

/-- The `for param_key, entries in param_groups.items()` loop of
`_analyze_feedback_patterns`, one key at a time. -/
def analyzeGroupsLoop (now : ℚ) (recent : List FeedbackEntry) :
    List (ℤ × ℚ × String) → OptimalParams × List ParameterAdjustment →
      OptimalParams × List ParameterAdjustment
  | [], acc => acc
  | key :: keys, acc =>
    let r := analyzeGroup now acc.1 (recent.filter (fun e => entryKey e = key))
    analyzeGroupsLoop now recent keys (r.1, acc.2 ++ r.2)

/-- `FeedbackSystem._analyze_feedback_patterns`: group the recent entries
by parameter key (dict insertion order = first occurrence, each group in
entry order), analyze each group in order.  Reinforcement mutates the
parameters during the loop; the suggested adjustments are accumulated and
applied afterwards. -/
def analyzeFeedbackPatterns (now : ℚ) (recent : List FeedbackEntry) (p : OptimalParams) :
    OptimalParams × List ParameterAdjustment :=
  analyzeGroupsLoop now recent (dedupFirst (recent.map entryKey)) (p, [])

/-- `FeedbackSystem._apply_parameter_adjustment`: append to the audit deque
(maxlen 100) and mutate the named parameter; `retrieval_k` goes through
`int(...)`. -/
def applyParameterAdjustment (s : FeedbackState) (adj : ParameterAdjustment) : FeedbackState :=
  let p := s.optimal_params
  { s with
      recent_adjustments := takeLast 100 (s.recent_adjustments ++ [adj])
      optimal_params :=
        if adj.parameter_name = "retrieval_k" then
          { p with retrieval_k := ratTrunc adj.new_value }
        else if adj.parameter_name = "rerank_threshold" then
          { p with rerank_threshold := adj.new_value }
        else p }

/-- `FeedbackSystem._is_in_cooldown_period`. -/
def isInCooldownPeriod (now : ℚ) (s : FeedbackState) : Bool :=
  match s.recent_adjustments.getLast? with
  | none => false
  | some a => decide (now < a.timestamp + adjustment_cooldown_hours)

/-- `FeedbackSystem._check_for_parameter_adjustments` (its internal
try/except only logs; the arithmetic paths it guards are total here). -/
def checkForParameterAdjustments (now : ℚ) (s : FeedbackState) : FeedbackState :=
  let recent := recentFeedback now s.feedback_entries
  if recent.length < min_feedback_for_adjustment then s
  else if isInCooldownPeriod now s then s
  else
    let r := analyzeFeedbackPatterns now recent s.optimal_params
    r.2.foldl applyParameterAdjustment { s with optimal_params := r.1 }

/-- `FeedbackSystem.log_feedback`: stamp the entry with the current time,
append it to the deque (maxlen 1000), then run the adjustment check. -/
def logFeedback (now : ℚ) (e : FeedbackEntry) (s : FeedbackState) : FeedbackState :=
  let s1 := { s with
    feedback_entries := takeLast 1000 (s.feedback_entries ++ [{ e with timestamp := now }]) }
  checkForParameterAdjustments now s1

/-- The bounds of the configured ranges (`k_adjustment_range`,
`rerank_threshold_range`). -/
def paramsInBounds (p : OptimalParams) : Prop :=
  k_adjustment_range.1 ≤ p.retrieval_k ∧ p.retrieval_k ≤ k_adjustment_range.2 ∧
  rerank_threshold_range.1 ≤ p.rerank_threshold ∧
  p.rerank_threshold ≤ rerank_threshold_range.2

/-- A feedback entry whose recorded parameters are within the configured
ranges (true of every entry the service itself generates, since entries
record the live parameters in effect at query time). -/
def entryInBounds (e : FeedbackEntry) : Prop :=
  k_adjustment_range.1 ≤ e.retrieval_k ∧ e.retrieval_k ≤ k_adjustment_range.2 ∧
  rerank_threshold_range.1 ≤ e.rerank_threshold ∧
  e.rerank_threshold ≤ rerank_threshold_range.2

theorem takeLast_of_le {α : Type} (n : ℕ) (l : List α) (h : l.length ≤ n) :
    takeLast n l = l := by
  unfold takeLast
  rw [Nat.sub_eq_zero_of_le h, List.drop_zero]

theorem takeLast_subset {α : Type} (n : ℕ) (l : List α) : takeLast n l ⊆ l :=
  List.drop_subset _ _

theorem checkFor_skip_lt5 (now : ℚ) (s : FeedbackState)
    (h : (recentFeedback now s.feedback_entries).length < min_feedback_for_adjustment) :
    checkForParameterAdjustments now s = s := by
  unfold checkForParameterAdjustments
  rw [if_pos h]

theorem checkFor_skip_cooldown (now : ℚ) (s : FeedbackState)
    (h : isInCooldownPeriod now s = true) :
    checkForParameterAdjustments now s = s := by
  unfold checkForParameterAdjustments
  by_cases h5 : (recentFeedback now s.feedback_entries).length < min_feedback_for_adjustment
  · rw [if_pos h5]
  · rw [if_neg h5, if_pos h]

theorem logFeedback_eq_of_few (now : ℚ) (e : FeedbackEntry) (s : FeedbackState)
    (h : (recentFeedback now
        (takeLast 1000 (s.feedback_entries ++ [{ e with timestamp := now }]))).length
      < min_feedback_for_adjustment) :
    logFeedback now e s = { s with
      feedback_entries :=
        takeLast 1000 (s.feedback_entries ++ [{ e with timestamp := now }]) } := by
  unfold logFeedback
  exact checkFor_skip_lt5 now _ h

theorem logFeedback_in_cooldown (now : ℚ) (e : FeedbackEntry) (s : FeedbackState)
    (h : isInCooldownPeriod now s = true) :
    (logFeedback now e s).optimal_params = s.optimal_params ∧
    (logFeedback now e s).recent_adjustments = s.recent_adjustments := by
  unfold logFeedback
  rw [checkFor_skip_cooldown now _ (by simpa [isInCooldownPeriod] using h)]
  exact ⟨rfl, rfl⟩

/-- C8: a feedback submission made while the recent 24-hour window holds
fewer than `min_feedback_for_adjustment` entries records the entry but
leaves every tuning parameter (and the adjustment log) unchanged. -/
theorem logFeedback_few_no_mutation (now : ℚ) (e : FeedbackEntry) (s : FeedbackState)
    (hfew : (recentFeedback now
        (takeLast 1000 (s.feedback_entries ++ [{ e with timestamp := now }]))).length
      < min_feedback_for_adjustment) :
    (logFeedback now e s).optimal_params = s.optimal_params ∧
    (logFeedback now e s).recent_adjustments = s.recent_adjustments ∧
    (logFeedback now e s).feedback_entries
      = takeLast 1000 (s.feedback_entries ++ [{ e with timestamp := now }]) := by
  rw [logFeedback_eq_of_few now e s hfew]
  exact ⟨rfl, rfl, rfl⟩

def wEntry : FeedbackEntry :=
  { rating := "positive"
    timestamp := 0
    retrieval_method := "hybrid"
    retrieval_k := 5
    rerank_threshold := 7/10
    quality_score := none
    confidence_score := none }

/-- C8 witness: a single submission against the startup state. -/
theorem logFeedback_few_no_mutation_witness :
    (logFeedback 0 wEntry initFeedbackState).optimal_params
      = initFeedbackState.optimal_params :=
  (logFeedback_few_no_mutation 0 wEntry initFeedbackState (by
    norm_num [recentFeedback, takeLast, initFeedbackState, wEntry,
      min_feedback_for_adjustment, List.filter])).1

/-- An adjustment record whose application cannot push the live parameters
out of the configured ranges. -/
def adjSafe (adj : ParameterAdjustment) : Prop :=
  (adj.parameter_name = "retrieval_k" →
    k_adjustment_range.1 ≤ ratTrunc adj.new_value ∧
    ratTrunc adj.new_value ≤ k_adjustment_range.2) ∧
  (adj.parameter_name = "rerank_threshold" →
    rerank_threshold_range.1 ≤ adj.new_value ∧
    adj.new_value ≤ rerank_threshold_range.2)

theorem applyParameterAdjustment_bounds (s : FeedbackState) (adj : ParameterAdjustment)
    (hp : paramsInBounds s.optimal_params) (ha : adjSafe adj) :
    paramsInBounds (applyParameterAdjustment s adj).optimal_params := by
  rcases hp with ⟨hk1, hk2, ht1, ht2⟩
  simp only [applyParameterAdjustment, paramsInBounds]
  by_cases h1 : adj.parameter_name = "retrieval_k"
  · rw [if_pos h1]
    rcases ha.1 h1 with ⟨h3, h4⟩
    exact ⟨h3, h4, ht1, ht2⟩
  · rw [if_neg h1]
    by_cases h2 : adj.parameter_name = "rerank_threshold"
    · rw [if_pos h2]
      rcases ha.2 h2 with ⟨h3, h4⟩
      exact ⟨hk1, hk2, h3, h4⟩
    · rw [if_neg h2]
      exact ⟨hk1, hk2, ht1, ht2⟩

theorem foldl_apply_bounds : ∀ (adjs : List ParameterAdjustment) (s : FeedbackState),
    paramsInBounds s.optimal_params → (∀ a ∈ adjs, adjSafe a) →
    paramsInBounds ((adjs.foldl applyParameterAdjustment s).optimal_params)
  | [], _, hp, _ => hp
  | a :: rest, s, hp, ha => by
    simp only [List.foldl_cons]
    exact foldl_apply_bounds rest _
      (applyParameterAdjustment_bounds s a hp (ha a (List.mem_cons_self _ _)))
      (fun x hx => ha x (List.mem_cons_of_mem _ hx))

theorem suggestImprovements_safe (now : ℚ) (sample : FeedbackEntry)
    (hs : entryInBounds sample) :
    ∀ a ∈ suggestImprovements now sample, adjSafe a := by
  rcases hs with ⟨hk1, hk2, ht1, ht2⟩
  simp only [k_adjustment_range] at hk1 hk2
  simp only [rerank_threshold_range] at ht1 ht2
  intro a ha
  simp only [suggestImprovements] at ha
  rw [List.mem_append] at ha
  rcases ha with ha | ha
  · by_cases c1 : sample.retrieval_k < 8
    · rw [if_pos c1, List.mem_singleton] at ha
      subst ha
      refine ⟨fun _ => ?_, fun h => absurd h (by simp)⟩
      rw [ratTrunc_intCast]
      constructor
      · refine le_min ?_ ?_ <;> simp only [k_adjustment_range] <;> omega
      · exact min_le_right _ _
    · rw [if_neg c1] at ha
      by_cases c2 : sample.retrieval_k > 5
      · rw [if_pos c2, List.mem_singleton] at ha
        subst ha
        refine ⟨fun _ => ?_, fun h => absurd h (by simp)⟩
        rw [ratTrunc_intCast]
        constructor
        · exact le_max_right _ _
        · refine max_le ?_ ?_ <;> simp only [k_adjustment_range] <;> omega
      · rw [if_neg c2] at ha
        exact absurd ha (List.not_mem_nil a)
  · by_cases c3 : sample.rerank_threshold > 1/2
    · rw [if_pos c3, List.mem_singleton] at ha
      subst ha
      refine ⟨fun h => absurd h (by simp), fun _ => ?_⟩
      constructor
      · exact le_max_right _ _
      · refine max_le ?_ ?_ <;> simp only [rerank_threshold_range] <;> linarith
    · rw [if_neg c3] at ha
      exact absurd ha (List.not_mem_nil a)

theorem reinforceParameters_safe (now : ℚ) (sample : FeedbackEntry) (p : OptimalParams)
    (hs : entryInBounds sample) (_hp : paramsInBounds p) :
    paramsInBounds (reinforceParameters now sample p).1 ∧
    ∀ a ∈ (reinforceParameters now sample p).2, adjSafe a := by
  rcases hs with ⟨hk1, hk2, ht1, ht2⟩
  constructor
  · exact ⟨hk1, hk2, ht1, ht2⟩
  · intro a ha
    simp only [reinforceParameters, List.mem_singleton] at ha
    subst ha
    exact ⟨fun h => absurd h (by simp), fun h => absurd h (by simp)⟩

theorem analyzeGroup_safe (now : ℚ) (p : OptimalParams) (g : List FeedbackEntry)
    (hg : ∀ x ∈ g, entryInBounds x) (hp : paramsInBounds p) :
    paramsInBounds (analyzeGroup now p g).1 ∧
    ∀ a ∈ (analyzeGroup now p g).2, adjSafe a := by
  cases g with
  | nil => exact ⟨hp, by simp [analyzeGroup]⟩
  | cons e rest =>
    simp only [analyzeGroup]
    by_cases c1 : (e :: rest).length < 3
    · rw [if_pos c1]
      exact ⟨hp, by simp⟩
    · rw [if_neg c1]
      by_cases c2 : combinedScore (e :: rest) < negative_feedback_threshold
      · rw [if_pos c2]
        exact ⟨hp, suggestImprovements_safe now e (hg e (List.mem_cons_self _ _))⟩
      · rw [if_neg c2]
        by_cases c3 : combinedScore (e :: rest) > positive_feedback_boost
        · rw [if_pos c3]
          exact reinforceParameters_safe now e p (hg e (List.mem_cons_self _ _)) hp
        · rw [if_neg c3]
          exact ⟨hp, by simp⟩

theorem analyzeGroupsLoop_safe (now : ℚ) (recent : List FeedbackEntry)
    (hrec : ∀ x ∈ recent, entryInBounds x) :
    ∀ (keys : List (ℤ × ℚ × String)) (acc : OptimalParams × List ParameterAdjustment),
      paramsInBounds acc.1 → (∀ a ∈ acc.2, adjSafe a) →
      paramsInBounds ((analyzeGroupsLoop now recent keys acc).1) ∧
      ∀ a ∈ (analyzeGroupsLoop now recent keys acc).2, adjSafe a
  | [], _, hp, ha => ⟨hp, ha⟩
  | key :: keys, acc, hp, ha => by
    unfold analyzeGroupsLoop
    have hgroup := analyzeGroup_safe now acc.1 (recent.filter (fun e => entryKey e = key))
      (fun x hx => hrec x (List.mem_of_mem_filter hx)) hp
    refine analyzeGroupsLoop_safe now recent hrec keys _ hgroup.1 ?_
    intro a ha'
    rw [List.mem_append] at ha'
    rcases ha' with h | h
    · exact ha a h
    · exact hgroup.2 a h

theorem checkFor_bounds (now : ℚ) (s : FeedbackState)
    (hp : paramsInBounds s.optimal_params)
    (hent : ∀ x ∈ s.feedback_entries, entryInBounds x) :
    paramsInBounds (checkForParameterAdjustments now s).optimal_params := by
  unfold checkForParameterAdjustments
  by_cases h5 : (recentFeedback now s.feedback_entries).length < min_feedback_for_adjustment
  · rw [if_pos h5]
    exact hp
  · rw [if_neg h5]
    by_cases hc : isInCooldownPeriod now s = true
    · rw [if_pos hc]
      exact hp
    · rw [if_neg hc]
      have hrec : ∀ x ∈ recentFeedback now s.feedback_entries, entryInBounds x :=
        fun x hx => hent x (List.mem_of_mem_filter hx)
      have hsafe := analyzeGroupsLoop_safe now (recentFeedback now s.feedback_entries) hrec
        (dedupFirst ((recentFeedback now s.feedback_entries).map entryKey))
        (s.optimal_params, []) hp (by simp)
      exact foldl_apply_bounds _ _ hsafe.1 hsafe.2

/-- C1 (amended): the startup defaults are within the configured ranges,
and every feedback submission preserves the bounds PROVIDED all recorded
feedback entries (and the submitted one) carry in-range parameter values —
which holds when entries record the live parameters in effect at query
time.  Without that proviso the invariant is false: the reinforcement path
copies entry values into the live parameters without clamping (see the
counterexample). -/
theorem tuningParams_bounds_preserved :
    paramsInBounds defaultOptimalParams ∧
    ∀ (now : ℚ) (e : FeedbackEntry) (s : FeedbackState),
      paramsInBounds s.optimal_params →
      (∀ x ∈ s.feedback_entries, entryInBounds x) →
      entryInBounds e →
      paramsInBounds (logFeedback now e s).optimal_params := by
  constructor
  · refine ⟨?_, ?_, ?_, ?_⟩ <;>
      norm_num [defaultOptimalParams, k_adjustment_range, rerank_threshold_range]
  · intro now e s hp hent he
    unfold logFeedback
    apply checkFor_bounds
    · exact hp
    · intro x hx
      have hx' := takeLast_subset _ _ hx
      rw [List.mem_append] at hx'
      rcases hx' with h | h
      · exact hent x h
      · rw [List.mem_singleton] at h
        subst h
        exact he

/-- C1 witness: a submission of an in-range entry against the startup
state keeps the parameters in range. -/
theorem tuningParams_bounds_preserved_witness :
    paramsInBounds (logFeedback 0 wEntry initFeedbackState).optimal_params :=
  tuningParams_bounds_preserved.2 0 wEntry initFeedbackState
    (by refine ⟨?_, ?_, ?_, ?_⟩ <;>
      norm_num [initFeedbackState, defaultOptimalParams, k_adjustment_range,
        rerank_threshold_range])
    (by simp [initFeedbackState])
    (by refine ⟨?_, ?_, ?_, ?_⟩ <;>
      norm_num [wEntry, k_adjustment_range, rerank_threshold_range])

/-- Feedback entry used for the C1 counterexample: excellent ratings with a
recorded `retrieval_k` of 100 — the caller-supplied value is arbitrary. -/
def c1Entry : FeedbackEntry :=
  { rating := "positive"
    timestamp := 100
    retrieval_method := "hybrid"
    retrieval_k := 100
    rerank_threshold := 7/10
    quality_score := some 5
    confidence_score := none }

/-- One submission of `c1Entry` at time 100. -/
def c1Step (s : FeedbackState) : FeedbackState := logFeedback 100 c1Entry s

theorem logFeedback100_accumulates (g : FeedbackEntry) (hg : g.timestamp = 100)
    (l : List FeedbackEntry) (hlen : l.length ≤ 3) :
    logFeedback 100 g { feedback_entries := l
                        recent_adjustments := []
                        optimal_params := defaultOptimalParams }
      = { feedback_entries := l ++ [g]
          recent_adjustments := []
          optimal_params := defaultOptimalParams } := by
  cases g with
  | mk r ts rm rk rt qs cs =>
    simp only at hg
    subst hg
    simp only [logFeedback]
    rw [takeLast_of_le _ _ (by
      simp only [List.length_append, List.length_singleton]
      omega)]
    apply checkFor_skip_lt5
    simp only [recentFeedback]
    refine lt_of_le_of_lt (List.length_filter_le _ _) ?_
    simp only [List.length_append, List.length_singleton, min_feedback_for_adjustment]
    omega

/-- C1 counterexample: five submissions of well-rated feedback whose
recorded `retrieval_k` is 100 drive the reinforcement path, which copies
the value straight into the live parameters: `retrieval_k` becomes 100,
far outside `k_adjustment_range = (3, 15)`. -/
theorem c1_reinforcement_counterexample :
    (c1Step (c1Step (c1Step (c1Step (c1Step initFeedbackState))))).optimal_params.retrieval_k
      = 100 ∧
    ¬ paramsInBounds
      (c1Step (c1Step (c1Step (c1Step (c1Step initFeedbackState))))).optimal_params := by
  have e1 : logFeedback 100 c1Entry initFeedbackState
      = { feedback_entries := [c1Entry]
          recent_adjustments := []
          optimal_params := defaultOptimalParams } := by
    simpa [initFeedbackState] using logFeedback100_accumulates c1Entry rfl [] (by norm_num)
  have e2 := logFeedback100_accumulates c1Entry rfl [c1Entry] (by norm_num)
  have e3 := logFeedback100_accumulates c1Entry rfl [c1Entry, c1Entry] (by norm_num)
  have e4 := logFeedback100_accumulates c1Entry rfl [c1Entry, c1Entry, c1Entry] (by norm_num)
  simp only [List.cons_append, List.nil_append] at e2 e3 e4
  have hk : (c1Step (c1Step (c1Step (c1Step (c1Step initFeedbackState))))).optimal_params.retrieval_k
      = 100 := by
    simp only [c1Step]
    rw [e1, e2, e3, e4]
    unfold logFeedback
    norm_num [checkForParameterAdjustments, recentFeedback, isInCooldownPeriod,
      analyzeFeedbackPatterns, analyzeGroupsLoop, analyzeGroup, combinedScore, positiveRatio,
      avgQuality, mean, reinforceParameters, applyParameterAdjustment, entryKey, round2,
      dedupFirst, dedupFirstAux, takeLast, defaultOptimalParams, c1Entry,
      min_feedback_for_adjustment, negative_feedback_threshold, positive_feedback_boost,
      user_rating_weight, quality_weight, List.filter, List.filterMap, List.getLast?]
    norm_num [List.cons_ne_nil, applyParameterAdjustment, takeLast]
    simp
  refine ⟨hk, fun hpb => ?_⟩
  rcases hpb with ⟨_, h2, _, _⟩
  rw [hk] at h2
  norm_num [k_adjustment_range] at h2

theorem dedupFirstAux_nil {α : Type} [DecidableEq α] : ∀ n : ℕ, dedupFirstAux (α := α) n [] = []
  | 0 => rfl
  | _ + 1 => rfl

theorem dedupFirst_const {α : Type} [DecidableEq α] (l : List α) (k : α)
    (hne : l ≠ []) (hall : ∀ x ∈ l, x = k) : dedupFirst l = [k] := by
  cases l with
  | nil => exact absurd rfl hne
  | cons a rest =>
    have ha : a = k := hall a (List.mem_cons_self _ _)
    subst ha
    unfold dedupFirst
    simp only [List.length_cons, dedupFirstAux]
    have hf : rest.filter (fun x => x ≠ a) = [] := by
      rw [List.filter_eq_nil_iff]
      intro x hx
      simp [hall x (List.mem_cons_of_mem _ hx)]
    rw [hf, dedupFirstAux_nil]

theorem suggestImprovements_count (now : ℚ) (sample : FeedbackEntry) :
    (suggestImprovements now sample).length
      = if 1/2 < sample.rerank_threshold then 2 else 1 := by
  simp only [suggestImprovements, List.length_append]
  by_cases c1 : sample.retrieval_k < 8
  · rw [if_pos c1]
    by_cases c3 : sample.rerank_threshold > 1/2
    · rw [if_pos c3, if_pos c3]
      simp
    · rw [if_neg c3, if_neg c3]
      simp
  · rw [if_neg c1]
    have c2 : sample.retrieval_k > 5 := by omega
    rw [if_pos c2]
    by_cases c3 : sample.rerank_threshold > 1/2
    · rw [if_pos c3, if_pos c3]
      simp
    · rw [if_neg c3, if_neg c3]
      simp

theorem suggestImprovements_timestamps (now : ℚ) (sample : FeedbackEntry) :
    ∀ a ∈ suggestImprovements now sample, a.timestamp = now := by
  intro a ha
  simp only [suggestImprovements] at ha
  rw [List.mem_append] at ha
  rcases ha with ha | ha
  · split_ifs at ha <;> simp_all
  · split_ifs at ha <;> simp_all

theorem foldl_apply_adjustments : ∀ (adjs : List ParameterAdjustment) (s : FeedbackState),
    s.recent_adjustments.length + adjs.length ≤ 100 →
    (adjs.foldl applyParameterAdjustment s).recent_adjustments
      = s.recent_adjustments ++ adjs
  | [], s, _ => by simp
  | a :: rest, s, h => by
    simp only [List.foldl_cons]
    have hra : (applyParameterAdjustment s a).recent_adjustments
        = s.recent_adjustments ++ [a] := by
      simp only [applyParameterAdjustment]
      exact takeLast_of_le _ _ (by
        simp only [List.length_append, List.length_singleton]
        simp only [List.length_cons] at h
        omega)
    have hlen : (applyParameterAdjustment s a).recent_adjustments.length + rest.length
        ≤ 100 := by
      rw [hra]
      simp only [List.length_append, List.length_singleton]
      simp only [List.length_cons] at h
      omega
    rw [foldl_apply_adjustments rest _ hlen, hra]
    simp

/-- The negative-feedback path of `_check_for_parameter_adjustments` when
all recent entries fall into one parameter group: the improvement
suggestions of the group's first entry are applied. -/
theorem checkFor_negative_path (now : ℚ) (s1 : FeedbackState) (x : FeedbackEntry)
    (xs : List FeedbackEntry)
    (hE : s1.feedback_entries = x :: xs)
    (hrecent : recentFeedback now (x :: xs) = x :: xs)
    (hkeys : ∀ y ∈ xs, entryKey y = entryKey x)
    (hcount : min_feedback_for_adjustment ≤ (x :: xs).length)
    (hcd : isInCooldownPeriod now s1 = false)
    (hscore : combinedScore (x :: xs) < negative_feedback_threshold) :
    checkForParameterAdjustments now s1
      = (suggestImprovements now x).foldl applyParameterAdjustment
          { feedback_entries := x :: xs
            recent_adjustments := s1.recent_adjustments
            optimal_params := s1.optimal_params } := by
  simp only [checkForParameterAdjustments, hE, hrecent]
  rw [if_neg (by
    simp only [min_feedback_for_adjustment] at hcount ⊢
    omega)]
  rw [hcd]
  simp only [Bool.false_eq_true, if_false]
  have hded : dedupFirst ((x :: xs).map entryKey) = [entryKey x] := by
    apply dedupFirst_const
    · simp
    · intro y hy
      rcases List.mem_map.mp hy with ⟨z, hz, rfl⟩
      rcases List.mem_cons.mp hz with rfl | hz'
      · rfl
      · exact hkeys z hz'
  have hfilt : (x :: xs).filter (fun e => entryKey e = entryKey x) = x :: xs := by
    rw [List.filter_eq_self]
    intro y hy
    rcases List.mem_cons.mp hy with rfl | hy'
    · simp
    · simp [hkeys y hy']
  simp only [analyzeFeedbackPatterns]
  rw [hded]
  simp only [analyzeGroupsLoop, hfilt, analyzeGroup]
  rw [if_neg (by
    simp only [min_feedback_for_adjustment] at hcount
    simp only [List.length_cons] at hcount ⊢
    omega)]
  rw [if_pos hscore]
  simp only [List.nil_append]

/-- C2 (amended): with at least `min_feedback_for_adjustment` recent
entries that share one parameter combination and a combined score below
`negative_feedback_threshold`, the submission records the improvement
suggestions of the group's first entry: one `retrieval_k` adjustment plus
one `rerank_threshold` adjustment when the shared threshold exceeds 0.5 —
so one or two adjustments, not exactly one.  Any further submission before
the cooldown elapses records nothing and changes no parameter. -/
theorem logFeedback_negative_records_adjustments (now : ℚ) (e : FeedbackEntry)
    (s : FeedbackState) (K : ℤ) (T : ℚ) (m : String)
    (hlen : s.feedback_entries.length < 1000)
    (hcount : min_feedback_for_adjustment ≤ s.feedback_entries.length + 1)
    (hall : ∀ x ∈ s.feedback_entries,
      x.retrieval_k = K ∧ x.rerank_threshold = T ∧ x.retrieval_method = m ∧
        now - 24 < x.timestamp)
    (heK : e.retrieval_k = K) (heT : e.rerank_threshold = T)
    (heM : e.retrieval_method = m)
    (hadj : s.recent_adjustments = [])
    (hscore : combinedScore (s.feedback_entries ++ [{ e with timestamp := now }])
      < negative_feedback_threshold) :
    ((logFeedback now e s).recent_adjustments.length
      = if 1/2 < (s.feedback_entries.headD e).rerank_threshold then 2 else 1) ∧
    ∀ (t : ℚ) (f : FeedbackEntry), t < now + adjustment_cooldown_hours →
      (logFeedback t f (logFeedback now e s)).optimal_params
        = (logFeedback now e s).optimal_params ∧
      (logFeedback t f (logFeedback now e s)).recent_adjustments
        = (logFeedback now e s).recent_adjustments := by
  cases hsf : s.feedback_entries with
  | nil =>
    exfalso
    rw [hsf] at hcount
    simp [min_feedback_for_adjustment] at hcount
  | cons x xs =>
    have hx : x.retrieval_k = K ∧ x.rerank_threshold = T ∧ x.retrieval_method = m ∧
        now - 24 < x.timestamp :=
      hall x (by rw [hsf]; exact List.mem_cons_self _ _)
    have hlog : logFeedback now e s
        = (suggestImprovements now x).foldl applyParameterAdjustment
            { feedback_entries := x :: (xs ++ [{ e with timestamp := now }])
              recent_adjustments := s.recent_adjustments
              optimal_params := s.optimal_params } := by
      unfold logFeedback
      rw [takeLast_of_le _ _ (by
        simp only [List.length_append, List.length_singleton]
        omega)]
      apply checkFor_negative_path
      · simp [hsf]
      · simp only [recentFeedback]
        rw [List.filter_eq_self]
        intro y hy
        rcases List.mem_cons.mp hy with rfl | hy'
        · simpa using hx.2.2.2
        · rcases List.mem_append.mp hy' with hy2 | hy2
          · have h := hall y (by rw [hsf]; exact List.mem_cons_of_mem _ hy2)
            simpa using h.2.2.2
          · rw [List.mem_singleton] at hy2
            subst hy2
            simp only [decide_eq_true_eq]
            linarith
      · intro y hy
        have hxkey : entryKey x = (K, round2 T, m) := by
          simp [entryKey, hx.1, hx.2.1, hx.2.2.1]
        rcases List.mem_append.mp hy with hy2 | hy2
        · have h := hall y (by rw [hsf]; exact List.mem_cons_of_mem _ hy2)
          rw [hxkey]
          simp [entryKey, h.1, h.2.1, h.2.2.1]
        · rw [List.mem_singleton] at hy2
          subst hy2
          rw [hxkey]
          simp [entryKey, heK, heT, heM]
      · rw [hsf] at hcount
        simp only [List.length_cons, List.length_append, List.length_singleton] at hcount ⊢
        omega
      · simp [isInCooldownPeriod, hadj]
      · rw [hsf] at hscore
        simpa using hscore
    have hcnt100 : s.recent_adjustments.length + (suggestImprovements now x).length
        ≤ 100 := by
      simp only [hadj, List.length_nil, suggestImprovements_count]
      split_ifs <;> norm_num
    have hra : (logFeedback now e s).recent_adjustments = suggestImprovements now x := by
      rw [hlog, foldl_apply_adjustments _ _ (by
        simp only [hadj, List.length_nil, suggestImprovements_count]
        split_ifs <;> norm_num)]
      simp [hadj]
    refine ⟨?_, ?_⟩
    · rw [hra, suggestImprovements_count]
      simp only [List.headD_cons, hx.2.1]
    · intro t f ht
      have hpos : 0 < (suggestImprovements now x).length := by
        rw [suggestImprovements_count]
        split_ifs <;> norm_num
      have hne : suggestImprovements now x ≠ [] := by
        intro hc
        rw [hc] at hpos
        simp at hpos
      have hlast := List.getLast?_eq_getLast (suggestImprovements now x) hne
      have hts : ((suggestImprovements now x).getLast hne).timestamp = now :=
        suggestImprovements_timestamps now x _ (List.getLast_mem hne)
      have hcool : isInCooldownPeriod t (logFeedback now e s) = true := by
        simp only [isInCooldownPeriod, hra, hlast, hts, adjustment_cooldown_hours]
        simp only [adjustment_cooldown_hours] at ht
        exact decide_eq_true (by linarith)
      exact logFeedback_in_cooldown t f _ hcool

/-- Feedback entry used for the C2 counterexample: uniformly negative
feedback recorded under the default parameters `k = 5`,
`rerank_threshold = 0.7`. -/
def c2Entry : FeedbackEntry :=
  { rating := "negative"
    timestamp := 100
    retrieval_method := "hybrid"
    retrieval_k := 5
    rerank_threshold := 7/10
    quality_score := none
    confidence_score := none }

/-- One submission of `c2Entry` at time 100. -/
def c2Step (s : FeedbackState) : FeedbackState := logFeedback 100 c2Entry s

/-- C2 counterexample: five uniformly negative submissions under the
default parameters record TWO `ParameterAdjustment`s (the k increase and
the threshold decrease), not exactly one, while the combined score of the
window is below `negative_feedback_threshold`. -/
theorem c2_two_adjustments_counterexample :
    (c2Step (c2Step (c2Step (c2Step (c2Step initFeedbackState))))).recent_adjustments.length
      = 2 ∧
    combinedScore [c2Entry, c2Entry, c2Entry, c2Entry, c2Entry]
      < negative_feedback_threshold := by
  have e1 : logFeedback 100 c2Entry initFeedbackState
      = { feedback_entries := [c2Entry]
          recent_adjustments := []
          optimal_params := defaultOptimalParams } := by
    simpa [initFeedbackState] using logFeedback100_accumulates c2Entry rfl [] (by norm_num)
  have e2 := logFeedback100_accumulates c2Entry rfl [c2Entry] (by norm_num)
  have e3 := logFeedback100_accumulates c2Entry rfl [c2Entry, c2Entry] (by norm_num)
  have e4 := logFeedback100_accumulates c2Entry rfl [c2Entry, c2Entry, c2Entry] (by norm_num)
  simp only [List.cons_append, List.nil_append] at e2 e3 e4
  constructor
  · simp only [c2Step]
    rw [e1, e2, e3, e4]
    unfold logFeedback
    norm_num [checkForParameterAdjustments, recentFeedback, isInCooldownPeriod,
      analyzeFeedbackPatterns, analyzeGroupsLoop, analyzeGroup, combinedScore, positiveRatio,
      avgQuality, mean, suggestImprovements, applyParameterAdjustment, entryKey, round2,
      dedupFirst, dedupFirstAux, takeLast, defaultOptimalParams, c2Entry,
      min_feedback_for_adjustment, negative_feedback_threshold, positive_feedback_boost,
      user_rating_weight, quality_weight, k_adjustment_range, rerank_threshold_range,
      List.filter, List.filterMap, List.getLast?]
    norm_num [List.cons_ne_nil, applyParameterAdjustment, takeLast]
    simp [applyParameterAdjustment, takeLast]
  · norm_num [combinedScore, positiveRatio, avgQuality, mean, negative_feedback_threshold,
      user_rating_weight, quality_weight, c2Entry]
    simp

def c2State : FeedbackState :=
  { feedback_entries := [{ c2Entry with timestamp := 99 }, { c2Entry with timestamp := 99 },
      { c2Entry with timestamp := 99 }, { c2Entry with timestamp := 99 }]
    recent_adjustments := []
    optimal_params := defaultOptimalParams }

/-- C2 witness: the amended theorem applied to a concrete state of four
recent negative entries plus a fifth submission. -/
theorem logFeedback_negative_records_adjustments_witness :
    (logFeedback 100 c2Entry c2State).recent_adjustments.length = 2 := by
  have h := logFeedback_negative_records_adjustments 100 c2Entry c2State 5 (7/10) "hybrid"
    (by norm_num [c2State])
    (by norm_num [c2State, min_feedback_for_adjustment])
    (by
      intro x hx
      simp only [c2State, List.mem_cons, List.not_mem_nil, or_false] at hx
      rcases hx with rfl | rfl | rfl | rfl <;> norm_num [c2Entry])
    (by norm_num [c2Entry])
    (by norm_num [c2Entry])
    (by norm_num [c2Entry])
    rfl
    (by
      norm_num [c2State, combinedScore, positiveRatio, avgQuality, mean,
        negative_feedback_threshold, user_rating_weight, quality_weight, c2Entry]
      simp)
  rw [h.1]
  norm_num [c2State, c2Entry]

/-! ### RetrievalOrchestrator (`app/retrievers/rag.py`)

`RAGRetriever.retrieve_context` composes external calls (FAISS similarity
search, cross-encoder scoring, embedding-based clustering and coherence
scoring) with pure glue logic.  Each external call is an `Except`-valued
oracle in `RetrieverEnv`; each pipeline stage keeps the source's own
try/except structure (fall back to a truncation of the incoming order).
The pure string heuristics `_detect_query_intent` (keyword tables) and
`QueryAnalyzer.analyze_query` (regex classification) are total functions of
the question, so we quantify over their possible outputs (`intent_filters`,
`analysis`) instead of re-deriving them: the proved properties hold for
every outcome, hence for the actual one.  Likewise the per-document
keyword-overlap test of `_filter_by_keyword_overlap` is the total predicate
`overlap_keep`; the stage keeps the source's never-empty fallback. -/

inductive FilterValue
  | str (s : String)
  | list (l : List String)
deriving DecidableEq

structure Document where
  page_content : String
  metadata : List (String × String)
deriving DecidableEq

/-- `key in doc.metadata` / `doc.metadata.get(key)` on the metadata dict
(string-valued after the source's `str(...)` conversion). -/
def metaLookup (md : List (String × String)) (key : String) : Option String :=
  (md.find? (fun p => p.1 = key)).map Prod.snd

/-- The per-document match loop of `_filter_documents_by_metadata`:
exact (case-insensitive) match for string criteria, membership for list
criteria, failure when the key is missing. -/
def docMatchesCriteria (criteria : List (String × FilterValue)) (doc : Document) : Bool :=
  criteria.all (fun kv =>
    match metaLookup doc.metadata kv.1, kv.2 with
    | some v, FilterValue.str s => lowerString s = lowerString v
    | some v, FilterValue.list l => (l.map lowerString).contains (lowerString v)
    | none, _ => false)

/-- `RAGRetriever._filter_documents_by_metadata`. -/
def filterDocumentsByMetadata (docs : List Document)
    (criteria : List (String × FilterValue)) : List Document :=
  if criteria = [] then docs else docs.filter (docMatchesCriteria criteria)

/-- `app/config.py`: final number of documents after reranking. -/
def RETRIEVAL_K : ℕ := 5

/-- `app/config.py`: initial candidate count before reranking. -/
def RETRIEVAL_CANDIDATES : ℕ := 20

structure RetrieverEnv where
  vectorstore_loaded : Bool
  load_vectorstore : Bool
  cross_encoder : Bool
  hybrid_retriever : Bool
  vector_search : ℕ → Except String (List Document)
  cross_encoder_scores : List Document → Except String (List ℚ)
  cluster_select : List Document → Except String (List Document)
  coherence_scores : List Document → Except String (List ℚ)
  overlap_keep : Document → Bool
  intent_filters : List (String × FilterValue)
  analysis : QueryType × QueryComplexity

/-- `_rerank_with_cross_encoder`: stable sort by the external scores
(descending), keep `k`; on scorer failure fall back to the original order
truncated to `k`. -/
def rerankWithCrossEncoder (env : RetrieverEnv) (docs : List Document) (k : ℕ) :
    List Document :=
  if !env.cross_encoder || docs.isEmpty then docs.take k
  else
    match env.cross_encoder_scores docs with
    | .error _ => docs.take k
    | .ok scores => ((pySortDescBy (fun p => p.1) (scores.zip docs)).map Prod.snd).take k

/-- `_cluster_documents_post_rerank`: skipped unless more than `k`
documents; the embedding + DBSCAN + largest-cluster selection is the
`cluster_select` oracle (the no-cluster path returns the documents
unchanged); its result, or on failure the original order, is truncated to
`k`. -/
def clusterDocumentsPostRerank (env : RetrieverEnv) (docs : List Document) (k : ℕ) :
    List Document :=
  if docs.length ≤ k then docs
  else
    match env.cluster_select docs with
    | .error _ => docs.take k
    | .ok clustered => clustered.take k

/-- `_score_context_coherence`: skipped unless more than `k` documents;
stable sort by the coherence scores from the embedding oracle, truncate to
`k`; failures fall back to the original order truncated. -/
def scoreContextCoherence (env : RetrieverEnv) (docs : List Document) (k : ℕ) :
    List Document :=
  if docs.length ≤ k then docs
  else
    match env.coherence_scores docs with
    | .error _ => docs.take k
    | .ok scores => ((pySortDescBy (fun p => p.1) (scores.zip docs)).map Prod.snd).take k

/-- `_filter_by_keyword_overlap`: keep documents passing the overlap
predicate, but if that would remove everything, keep the input unchanged. -/
def filterByKeywordOverlap (env : RetrieverEnv) (docs : List Document) : List Document :=
  let filtered := docs.filter env.overlap_keep
  if filtered.isEmpty then docs else filtered

/-- The metadata-filter block of `retrieve_context` (lines 497-516):
filter, and when the result has fewer than `k` but more than 0 documents,
re-query the vector store with a 3x wider pool, re-filter, and adopt the
expanded result only when it is strictly larger. -/
def metadataFilterStage (vector_search : ℕ → Except String (List Document))
    (filter_criteria : List (String × FilterValue)) (k candidates_k : ℕ)
    (candidate_docs : List Document) : Except String (List Document) :=
  if filter_criteria = [] then Except.ok candidate_docs
  else
    let filtered := filterDocumentsByMetadata candidate_docs filter_criteria
    if filtered.length < k ∧ 0 < filtered.length then
      match vector_search (candidates_k * 3) with
      | .error msg => .error msg
      | .ok more_candidates =>
        let filtered_more := filterDocumentsByMetadata more_candidates filter_criteria
        .ok (if filtered.length < filtered_more.length then filtered_more else filtered)
    else Except.ok filtered

/-- The `k` actually used: the caller's override, else the analyzer's
`optimal_k` under adaptive retrieval, else `RETRIEVAL_K`. -/
def effectiveK (env : RetrieverEnv) (k? : Option ℕ) (use_adaptive_retrieval : Bool) : ℕ :=
  match k?, use_adaptive_retrieval with
  | some k, _ => k
  | none, true => (determineOptimalK env.analysis.1 env.analysis.2).toNat
  | none, false => RETRIEVAL_K

/-- The try-block of `retrieve_context` (lines 441-554).  The nested call
`search_with_fallback(dense_results, question, top_k=candidates_k)` passes
`top_k` both positionally (via `question`) and by keyword, so Python raises
a TypeError at that call whenever the hybrid retriever is initialized and
the candidate list is non-empty; the embedding records this as an error for
the outer handler to catch. -/
def retrieveContextBody (env : RetrieverEnv) (k : ℕ)
    (filter_criteria : List (String × FilterValue)) (auto_filter : Bool) :
    Except String (List Document) := do
  let candidates_k := if env.cross_encoder then RETRIEVAL_CANDIDATES else k
  let criteria := if auto_filter ∧ filter_criteria = [] then env.intent_filters
    else filter_criteria
  let candidate_docs ← env.vector_search candidates_k
  let candidate_docs ←
    if env.hybrid_retriever ∧ candidate_docs ≠ [] then
      Except.error "TypeError: got multiple values for argument top_k"
    else pure candidate_docs
  let candidate_docs ← metadataFilterStage env.vector_search criteria k candidates_k
    candidate_docs
  let relevant_docs :=
    if env.cross_encoder ∧ k < candidate_docs.length then
      rerankWithCrossEncoder env candidate_docs (min (k * 2) candidate_docs.length)
    else candidate_docs.take (min (k * 2) candidate_docs.length)
  let relevant_docs := filterByKeywordOverlap env relevant_docs
  let relevant_docs :=
    if k < relevant_docs.length then clusterDocumentsPostRerank env relevant_docs (k * 2)
    else relevant_docs
  pure (scoreContextCoherence env relevant_docs k)

/-- `RAGRetriever.retrieve_context`: vectorstore guard, adaptive `k`, and
the outer try/except that converts every internal failure into `[]`. -/
def retrieveContext (env : RetrieverEnv) (k? : Option ℕ)
    (filter_criteria : List (String × FilterValue))
    (auto_filter use_adaptive_retrieval : Bool) : Except String (List Document) :=
  if !env.vectorstore_loaded && !env.load_vectorstore then Except.ok []
  else
    match retrieveContextBody env (effectiveK env k? use_adaptive_retrieval)
        filter_criteria auto_filter with
    | .ok docs => .ok docs
    | .error _ => .ok []

/-- C5: for every question (through the intent/analysis outcomes), every
argument combination, and every behaviour of the external calls,
`retrieve_context` returns `.ok` of some list — no error propagates: an
unavailable vector store and every internal failure degrade to a list
(possibly empty), and the no-results case yields exactly `[]`. -/
theorem retrieveContext_never_raises (env : RetrieverEnv) (k? : Option ℕ)
    (filter_criteria : List (String × FilterValue)) (auto_filter uar : Bool) :
    (∃ docs, retrieveContext env k? filter_criteria auto_filter uar = .ok docs) ∧
    ((∀ n, env.vector_search n = .ok []) →
      retrieveContext env k? filter_criteria auto_filter uar = .ok []) := by
  constructor
  · unfold retrieveContext
    by_cases hload : (!env.vectorstore_loaded && !env.load_vectorstore) = true
    · rw [if_pos hload]
      exact ⟨[], rfl⟩
    · rw [if_neg hload]
      cases hbody : retrieveContextBody env (effectiveK env k? uar) filter_criteria
          auto_filter with
      | ok docs => exact ⟨docs, rfl⟩
      | error msg => exact ⟨[], rfl⟩
  · intro hvs
    unfold retrieveContext
    by_cases hload : (!env.vectorstore_loaded && !env.load_vectorstore) = true
    · rw [if_pos hload]
    · rw [if_neg hload]
      have hbody : retrieveContextBody env (effectiveK env k? uar) filter_criteria
          auto_filter = .ok [] := by
        unfold retrieveContextBody
        simp [hvs, Bind.bind, Except.bind, Pure.pure, Except.pure, metadataFilterStage,
          filterDocumentsByMetadata, filterByKeywordOverlap, clusterDocumentsPostRerank,
          scoreContextCoherence]
      rw [hbody]

def c5Env : RetrieverEnv :=
  { vectorstore_loaded := true
    load_vectorstore := true
    cross_encoder := true
    hybrid_retriever := true
    vector_search := fun _ => .ok []
    cross_encoder_scores := fun _ => .error "ProviderUnavailable"
    cluster_select := fun _ => .error "ProviderUnavailable"
    coherence_scores := fun _ => .error "ProviderUnavailable"
    overlap_keep := fun _ => true
    intent_filters := []
    analysis := (QueryType.factual, QueryComplexity.medium) }

/-- C5 witness: a concrete environment whose vector store returns no
results and whose scorers fail yields the empty list without an error. -/
theorem retrieveContext_never_raises_witness :
    retrieveContext c5Env none [] true true = .ok [] :=
  (retrieveContext_never_raises c5Env none [] true true).2 (fun _ => rfl)

def c9DocA : Document :=
  { page_content := "python language basics"
    metadata := [("title", "python language")] }

def c9DocCV : Document :=
  { page_content := "faiq cv"
    metadata := [("title", "cv")] }

def c9Criteria : List (String × FilterValue) := [("title", FilterValue.str "cv")]

def c9Search : ℕ → Except String (List Document) := fun _ => .ok [c9DocCV]

/-- C9 counterexample: metadata filtering leaves ZERO documents (below
`k = 5`), yet no re-query happens — the stage returns `[]` even though the
3x pool (the vector-search oracle) contains a matching document that
re-filtering would keep. -/
theorem metadataFilterStage_zero_no_requery :
    metadataFilterStage c9Search c9Criteria 5 20 [c9DocA] = .ok [] ∧
    filterDocumentsByMetadata [c9DocCV] c9Criteria = [c9DocCV] := by
  exact ⟨rfl, by decide⟩

/-- C9 (amended): the 3x-wider re-query runs exactly when filtering leaves
at least one but fewer than `k` documents; then the wider pool is
re-filtered and adopted only when strictly larger.  When filtering leaves
zero documents the stage returns the empty list without consulting the
wider pool. -/
theorem metadataFilterStage_requery (vs : ℕ → Except String (List Document))
    (criteria : List (String × FilterValue)) (k candidates_k : ℕ)
    (docs : List Document) (hcrit : criteria ≠ []) :
    (filterDocumentsByMetadata docs criteria = [] →
      metadataFilterStage vs criteria k candidates_k docs = .ok []) ∧
    (0 < (filterDocumentsByMetadata docs criteria).length →
      (filterDocumentsByMetadata docs criteria).length < k →
      metadataFilterStage vs criteria k candidates_k docs
        = (vs (candidates_k * 3)).map (fun more =>
            if (filterDocumentsByMetadata docs criteria).length
                < (filterDocumentsByMetadata more criteria).length
            then filterDocumentsByMetadata more criteria
            else filterDocumentsByMetadata docs criteria)) := by
  constructor
  · intro hzero
    unfold metadataFilterStage
    rw [if_neg hcrit]
    simp [hzero]
  · intro hpos hlt
    unfold metadataFilterStage
    rw [if_neg hcrit]
    rw [if_pos ⟨hlt, hpos⟩]
    cases hv : vs (candidates_k * 3) with
    | error msg => simp [Except.map]
    | ok more => simp [Except.map]

def c9Search2 : ℕ → Except String (List Document) := fun _ => .ok [c9DocCV, c9DocCV]

/-- C9 witness: with one matching document out of two (fewer than `k = 5`),
the stage re-queries and adopts the strictly larger filtered pool. -/
theorem metadataFilterStage_requery_witness :
    metadataFilterStage c9Search2 c9Criteria 5 20 [c9DocCV, c9DocA]
      = .ok [c9DocCV, c9DocCV] := by
  have h := (metadataFilterStage_requery c9Search2 c9Criteria 5 20 [c9DocCV, c9DocA]
    (by decide)).2 (by decide) (by decide)
  rw [h]
  rfl

end RagSpec
